import Mathlib

/-!
# Formal model of `src/main.py` (KMMatveev/SearchBase)

A shallow embedding of the single-file web spider: the URL filter
(`is_valid_url`), the token validator (`_is_valid_token`), the ledger
store (`save_index_txt` / `load_existing_data`), the CSV export
(`save_csv`), the BFS crawl loop (`crawl`), and the text-processing
aggregation (`process_downloaded_pages`).

Python strings are sequences of Unicode code points; we model them as
`List Char` (`PyStr`).  External collaborators (HTTP transport via
`requests`, HTML parsing via BeautifulSoup, morphology via pymorphy3)
are parameters of the model, exactly as the spec designates them
black boxes.  Python library primitives used by the code
(`str.strip`, `str.lower`, `str.split`, `urllib.parse.urlparse`,
`int()`, `csv.writer`, regexes) are modelled character-for-character
on the ranges of characters this program manipulates
(ASCII + Cyrillic).
-/

namespace SearchBase

/-- Python `str` modelled as its sequence of code points. -/
abbrev PyStr := List Char

/-- Coerce a Lean string literal to the `PyStr` model. -/
def pys (s : String) : PyStr := s.toList

/-- `lo ≤ c ≤ hi` on code points, as a `Bool`. -/
def between (lo hi : Nat) (c : Char) : Bool :=
  decide (lo ≤ c.toNat) && decide (c.toNat ≤ hi)

/-- ASCII lowercase letter `a`-`z`. -/
def latinLower (c : Char) : Bool := between 97 122 c

/-- ASCII uppercase letter `A`-`Z`. -/
def latinUpper (c : Char) : Bool := between 65 90 c

/-- Cyrillic lowercase range `а`-`я` (U+0430–U+044F); note `ё` (U+0451) is outside it. -/
def cyrLower (c : Char) : Bool := between 0x430 0x44F c

/-- Cyrillic uppercase range `А`-`Я` (U+0410–U+042F); note `Ё` (U+0401) is outside it. -/
def cyrUpper (c : Char) : Bool := between 0x410 0x42F c

/-- The regex class `[a-zA-Zа-яА-Я]` used at main.py:240 and main.py:246
(it does not include `ё`/`Ё`). -/
def letterNoYo (c : Char) : Bool :=
  latinLower c || latinUpper c || cyrLower c || cyrUpper c

/-- The regex class `[a-zA-Zа-яА-ЯёЁ]` used at main.py:249 and main.py:266. -/
def letterExt (c : Char) : Bool :=
  letterNoYo c || decide (c.toNat = 0x451) || decide (c.toNat = 0x401)

/-- ASCII digit `0`-`9` (model of regex `\d` and of `str.isdigit` on the
character ranges this program manipulates). -/
def digitCh (c : Char) : Bool := between 48 57 c

/-- Python `str.lower`, character-wise, on the ASCII/Cyrillic ranges this
program manipulates (other code points are fixed). -/
def pyLowerChar (c : Char) : Char :=
  if latinUpper c then Char.ofNat (c.toNat + 32)
  else if cyrUpper c then Char.ofNat (c.toNat + 0x20)
  else if c.toNat = 0x401 then Char.ofNat 0x451
  else c

/-- Python `str.lower` on the model. -/
def pyLower (s : PyStr) : PyStr := s.map pyLowerChar

/-- Python whitespace stripped by no-argument `str.strip`
(space, tab, newline, carriage return, vertical tab, form feed). -/
def pyWs (c : Char) : Bool := [32, 9, 10, 13, 11, 12].contains c.toNat

/-- `str.strip(chars)` / no-arg `str.strip`: drop characters satisfying `p`
from both ends. -/
def pyStrip (p : Char → Bool) (s : PyStr) : PyStr :=
  ((s.dropWhile p).reverse.dropWhile p).reverse

/-- The character set stripped at main.py:229:
`string.punctuation` (ASCII 33–47, 58–64, 91–96, 123–126) together with
`«` (U+00AB), `»` (U+00BB), two ASCII double quotes, two ASCII
apostrophes (already in `string.punctuation`), `–` (U+2013),
`—` (U+2014) and `…` (U+2026). -/
def stripSet (c : Char) : Bool :=
  between 33 47 c || between 58 64 c || between 91 96 c || between 123 126 c ||
    [0xAB, 0xBB, 0x2013, 0x2014, 0x2026].contains c.toNat

/-- The Russian stopword set of `_load_russian_stopwords` (main.py:213-226),
transcribed verbatim (the Python set literal contains `через` and `что`
twice; set semantics make the duplicates irrelevant). -/
def stopwords : List PyStr :=
  (["в", "на", "за", "под", "над", "при", "по", "о", "об", "от", "до", "из", "к", "с", "у", "для",
    "через", "после", "перед", "между", "сквозь", "около", "вокруг", "без", "кроме", "через",
    "и", "или", "но", "а", "да", "если", "что", "чтобы", "как", "когда", "где", "куда", "откуда",
    "потому", "поэтому", "зато", "либо", "нежели", "будто", "словно", "ибо", "дабы",
    "не", "ни", "ли", "же", "бы", "вот", "ведь", "пусть", "давай", "ка", "то", "таки",
    "я", "ты", "он", "она", "оно", "мы", "вы", "они", "себя", "мой", "твой", "свой", "наш", "ваш",
    "этот", "тот", "какой", "кто", "что", "весь", "вся", "всё", "все", "сам", "самый",
    "быть", "был", "была", "было", "были", "есть", "будет", "будут", "это", "всего", "весьма",
    "один", "два", "три", "четыре", "пять", "шесть", "семь", "восемь", "девять", "десять",
    "первый", "второй", "третий", "четвертый", "пятый"]).map String.toList

/-- Python `str.isdigit`: nonempty and all digits (restricted to ASCII
digits, the only digit characters the surrounding checks interact with). -/
def pyIsDigitStr (s : PyStr) : Bool := !s.isEmpty && s.all digitCh

/-- The symbol reject class of main.py:243, regex `[<>/{}[\]\\|@#$%^&*=~` + backtick + `]`:
code points 60 62 47 123 125 91 93 92 124 64 35 36 37 94 38 42 61 126 96. -/
def symCh (c : Char) : Bool :=
  [60, 62, 47, 123, 125, 91, 93, 92, 124, 64, 35, 36, 37, 94, 38, 42, 61, 126, 96].contains c.toNat

/-- Body of regex `^[<symbols>]+$`. -/
def symbolBody (s : PyStr) : Bool := !s.isEmpty && s.all symCh

/-- Body of regex `^([a-zA-Zа-яА-Я])\1{2,}$` (main.py:246): a letter of the
non-extended class followed by at least two more copies of itself. -/
def runBody (s : PyStr) : Bool :=
  match s with
  | [] => false
  | c :: rest => letterNoYo c && decide (2 ≤ rest.length) && rest.all (· == c)

/-- Body of regex `^[a-zA-Zа-яА-ЯёЁ]+$` (main.py:249). -/
def lettersBody (s : PyStr) : Bool := !s.isEmpty && s.all letterExt

/-- Python regex `$` in `re.match(r'^...$', s)` matches at the end of the
string or just before a final newline, so a full match succeeds on `s`
or on `s` minus one trailing newline. -/
def reDollar (p : PyStr → Bool) (s : PyStr) : Bool :=
  p s || (s.getLast? == some '\n' && p s.dropLast)

/-- `WebSpider._is_valid_token` (main.py:228-252).  The candidate is
stripped of the punctuation/quote set and lowercased, then run through
the reject chain; only a candidate surviving every check is accepted. -/
def is_valid_token (tok : PyStr) : Bool :=
  let token := pyLower (pyStrip stripSet tok)
  if token.isEmpty || decide (token.length < 2) || decide (50 < token.length) then false
  else if stopwords.contains token then false
  else if pyIsDigitStr token then false
  else if token.any letterNoYo && token.any digitCh then false
  else if reDollar symbolBody token then false
  else if reDollar runBody token then false
  else if !(reDollar lettersBody token) then false
  else true

/-- `pat` is a prefix of `s` (on code points). -/
def prefixOf : PyStr → PyStr → Bool
  | [], _ => true
  | _ :: _, [] => false
  | p :: ps, c :: cs => p == c && prefixOf ps cs

/-- Python substring containment `pat in s` (contiguous; empty pattern
is contained in everything). -/
def substrOf (pat : PyStr) : PyStr → Bool
  | [] => prefixOf pat []
  | c :: cs => prefixOf pat (c :: cs) || substrOf pat cs

/-- The fixed extension deny-list of main.py:70-72. -/
def mediaExts : List PyStr :=
  ([".jpg", ".jpeg", ".png", ".gif", ".bmp",
    ".mp4", ".mp3", ".pdf", ".zip", ".rar",
    ".css", ".js", ".ico", ".svg", ".woff", ".ttf"]).map String.toList

/-- C0 control characters and space, left-stripped by `urllib.parse.urlsplit`. -/
def c0OrSpace (c : Char) : Bool := decide (c.toNat ≤ 32)

/-- Tab, carriage return, newline: removed everywhere by `urlsplit`. -/
def tabCrNl (c : Char) : Bool := [9, 13, 10].contains c.toNat

/-- Characters allowed in a URL scheme (`urllib.parse.scheme_chars`). -/
def schemeChr (c : Char) : Bool :=
  latinLower c || latinUpper c || digitCh c || [43, 45, 46].contains c.toNat

/-- Drop a leading `scheme:` from a URL, following `urllib.parse.urlsplit`:
a scheme is recognised when a `:` occurs at position `> 0`, the first
character is an ASCII letter and everything before the `:` is a scheme
character. -/
def afterScheme (url : PyStr) : PyStr :=
  let pre := url.takeWhile (fun c => !(c == ':'))
  if decide (pre.length < url.length) && !pre.isEmpty &&
      (latinLower (pre.headD ' ') || latinUpper (pre.headD ' ')) && pre.all schemeChr
  then url.drop (pre.length + 1) else url

/-- Sanitised remainder of a URL after scheme removal (`urlsplit` first
left-strips C0 controls/space and removes tab/CR/NL everywhere). -/
def urlRest (url : PyStr) : PyStr :=
  afterScheme ((url.dropWhile c0OrSpace).filter (fun c => !(tabCrNl c)))

/-- `urllib.parse.urlparse(url).netloc`: present only when the remainder
after the scheme starts with `//`; extends to the next `/`, `?` or `#`. -/
def netloc (url : PyStr) : PyStr :=
  match urlRest url with
  | '/' :: '/' :: r => r.takeWhile (fun c => !([47, 63, 35].contains c.toNat))
  | _ => []

/-- `urlparse(url).path` and `urlparse(url).query` (path up to `?`/`#`;
query between `?` and `#`). -/
def pathQuery (url : PyStr) : PyStr × PyStr :=
  let rest : PyStr :=
    match urlRest url with
    | '/' :: '/' :: r => r.dropWhile (fun c => !([47, 63, 35].contains c.toNat))
    | other => other
  let noFrag := rest.takeWhile (fun c => !(c == '#'))
  let p := noFrag.takeWhile (fun c => !(c == '?'))
  let q := if decide (p.length < noFrag.length) then noFrag.drop (p.length + 1) else []
  (p, q)

/-- `WebSpider.is_valid_url` (main.py:66-83).  Checks in source order:
1. any deny-list extension occurring anywhere in the lowercased URL;
2. a non-empty `urlparse` netloc differing from the base domain;
3. a `#` anywhere in the raw URL, or `sessionid`/`sid=` in the
   lowercased URL. -/
def is_valid_url (base url : PyStr) : Bool :=
  if mediaExts.any (fun e => substrOf e (pyLower url)) then false
  else if !(netloc url).isEmpty && !(netloc url == base) then false
  else if url.contains '#' || substrOf (pys "sessionid") (pyLower url) ||
      substrOf (pys "sid=") (pyLower url) then false
  else true

/-- Decimal digits of a natural number, with explicit recursion fuel
(always called with enough fuel; structural recursion keeps the
definition computable by the kernel). -/
def natReprAux : Nat → Nat → PyStr
  | 0, _ => []
  | fuel + 1, n =>
    if n < 10 then [Char.ofNat (48 + n)]
    else natReprAux fuel (n / 10) ++ [Char.ofNat (48 + n % 10)]

/-- Decimal digits of a natural number (Python `str(n)` for `n ≥ 0`). -/
def natRepr (n : Nat) : PyStr := natReprAux (n + 1) n

/-- Python `str(i)` for an `int`. -/
def intRepr (i : Int) : PyStr :=
  if i < 0 then '-' :: natRepr i.natAbs else natRepr i.toNat

/-- Value of a digit string, most significant first. -/
def digitsVal (s : PyStr) : Nat := s.foldl (fun a c => a * 10 + (c.toNat - 48)) 0

/-- Parse a nonempty all-digit string. -/
def parseDigits (s : PyStr) : Option Nat :=
  if !s.isEmpty && s.all digitCh then some (digitsVal s) else none

/-- Python `int(s)` on an already-stripped string: optional sign followed
by digits (digit-group underscores are not modelled; no value this
program writes contains them). -/
def pyInt? (s : PyStr) : Option Int :=
  if s.headD ' ' = '-' then (parseDigits s.tail).map (fun n : Nat => -(n : Int))
  else if s.headD ' ' = '+' then (parseDigits s.tail).map (fun n : Nat => (n : Int))
  else (parseDigits s).map (fun n : Nat => (n : Int))

/-- A ledger/CSV record: one fetched page
(main.py:49-54 and main.py:153-158).  `parent = none` models Python
`None` (only `load_existing_data` produces it); records created by the
crawl always carry a string, possibly the literal `"None"`. -/
structure PageRecord where
  file_number : Int
  url : PyStr
  filename : PyStr
  parent : Option PyStr
deriving DecidableEq, Repr

/-- `f'page_{n}.html'`. -/
def pageFilename (n : Int) : PyStr := pys "page_" ++ intRepr n ++ pys ".html"

/-- Python `sorted(..., key=lambda x: x['file_number'])` compares records
by sequence number. -/
def recLe (a b : PageRecord) : Prop := a.file_number ≤ b.file_number

instance : DecidableRel recLe :=
  fun a b => inferInstanceAs (Decidable (a.file_number ≤ b.file_number))

instance : IsTotal PageRecord recLe := ⟨fun x y => Int.le_total x.file_number y.file_number⟩

instance : IsTrans PageRecord recLe := ⟨fun _ _ _ h₁ h₂ => le_trans h₁ h₂⟩

/-- One ledger line body, `f"{file_number} {url}"` (main.py:193). -/
def indexLine (r : PageRecord) : PyStr := intRepr r.file_number ++ ' ' :: r.url

/-- `WebSpider.save_index_txt` (main.py:190-194): the full ledger file,
records sorted by sequence number (Python `sorted` is stable, and a
stable sort by key is uniquely determined; `List.insertionSort` with
this relation is stable), one line `"<n> <url>\n"` per record. -/
def save_index_txt (rs : List PageRecord) : PyStr :=
  ((rs.insertionSort recLe).map (fun r => indexLine r ++ ['\n'])).flatten

/-- Split on a separator character, keeping empty pieces (the shape
`for line in f` sees after universal-newline translation). -/
def splitOnChar (sep : Char) : PyStr → List PyStr
  | [] => [[]]
  | c :: cs =>
    if c = sep then [] :: splitOnChar sep cs
    else (c :: (splitOnChar sep cs).headD []) :: (splitOnChar sep cs).tail

/-- Universal-newline translation performed by reading a file in text
mode: `\r\n` and lone `\r` both become `\n`. -/
def univNewlines : PyStr → PyStr
  | [] => []
  | '\r' :: '\n' :: rest => '\n' :: univNewlines rest
  | '\r' :: rest => '\n' :: univNewlines rest
  | c :: rest => c :: univNewlines rest

/-- No-argument `str.strip()`. -/
def pyStripWs (s : PyStr) : PyStr := pyStrip pyWs s

/-- `line.split(' ', 1)` when it yields two parts: the text before the
first space and everything after it.  `none` when there is no space
(the two-variable unpacking in main.py:47 then raises `ValueError`,
and the line is skipped). -/
def splitFirstSpace : PyStr → Option (PyStr × PyStr)
  | [] => none
  | c :: cs =>
    if c = ' ' then some ([], cs)
    else (splitFirstSpace cs).map (fun p => (c :: p.1, p.2))

/-- Parse one ledger line (main.py:44-57): strip it, skip if empty,
split at the first space, parse the sequence number; any failure skips
the line. -/
def processLine (line : PyStr) : Option (Int × PyStr) :=
  let l := pyStripWs line
  if l.isEmpty then none
  else
    match splitFirstSpace l with
    | none => none
    | some (numS, url) => (pyInt? numS).map (fun n => (n, url))

/-- The state rebuilt by `load_existing_data`:
visited set, record list, high-water sequence counter. -/
structure LoadState where
  visited : Finset PyStr
  records : List PageRecord
  count : Int
deriving DecidableEq

/-- Processing of one ledger line into the load state (main.py:46-57):
the URL joins the visited set, a record with reconstructed filename and
`parent = None` is appended, and the counter takes the max. -/
def loadStep (st : LoadState) (line : PyStr) : LoadState :=
  match processLine line with
  | none => st
  | some (n, url) =>
      { visited := insert url st.visited,
        records := st.records ++ [⟨n, url, pageFilename n, none⟩],
        count := max st.count n }

/-- `WebSpider.load_existing_data` (main.py:40-58) on a ledger file's
contents, starting from the freshly-initialised spider state. -/
def load_existing_data (content : PyStr) : LoadState :=
  (splitOnChar '\n' (univNewlines content)).foldl loadStep ⟨∅, [], 0⟩

/-- `csv` module minimal quoting: a field is quoted (with internal
double quotes doubled) iff it contains the delimiter, the quote
character or a line-terminator character. -/
def csvQuote (f : PyStr) : PyStr :=
  if f.any (fun c => [44, 34, 13, 10].contains c.toNat) then
    '"' :: (f.map (fun c => if c.toNat = 34 then [c, c] else [c])).flatten ++ ['"']
  else f

/-- `csv.writer` renders Python `None` as the empty string; any other
value is its string form. -/
def csvField : Option PyStr → PyStr
  | none => []
  | some s => s

/-- One CSV data row of `save_csv` (main.py:196-204). -/
def csvRow (r : PageRecord) : PyStr :=
  csvQuote (intRepr r.file_number) ++ ',' :: csvQuote r.url ++ ',' ::
    csvQuote r.filename ++ ',' :: csvQuote (csvField r.parent)

/-- `WebSpider.save_csv` (main.py:196-204), modelled as the list of rows
of the produced file: the header then one row per record sorted by
sequence number. -/
def save_csv (rs : List PageRecord) : List PyStr :=
  pys "file_number,url,filename,parent" :: (rs.insertionSort recLe).map csvRow

/-- A frontier entry `(url, depth, parent_url)` (main.py:132). -/
structure Entry where
  url : PyStr
  depth : Nat
  parent : Option PyStr
deriving DecidableEq, Repr

/-- One call of `get_page_content` made by the crawl loop: which URL was
fetched, at which depth, against which visited set, with what outcome
(`none` models a transport failure / non-text content type,
main.py:85-101). -/
structure FetchEvent where
  url : PyStr
  depth : Nat
  visitedBefore : Finset PyStr
  fetched : Option PyStr
deriving DecidableEq

/-- Result of a crawl run: final visited set, ledger records, download
counter, and the log of fetch attempts in order. -/
structure CrawlResult where
  visited : Finset PyStr
  results : List PageRecord
  count : Int
  events : List FetchEvent
deriving DecidableEq

/-- Prepend a fetch attempt to a run's log. -/
def pushEvent (ev : FetchEvent) (res : CrawlResult) : CrawlResult :=
  { res with events := ev :: res.events }

/-- Python truthiness test `not html` on `get_page_content`'s result:
true for `None` and for the empty string. -/
def notHtml : Option PyStr → Bool
  | none => true
  | some s => s.isEmpty

/-- `parent_url if parent_url else 'None'` (main.py:157): Python `None`
and the empty string are both falsy. -/
def parentField : Option PyStr → PyStr
  | none => pys "None"
  | some s => if s.isEmpty then pys "None" else s

/-- `WebSpider.extract_links` (main.py:103-114): candidate absolute URLs
(produced by the BeautifulSoup/`urljoin` collaborator) filtered by
`is_valid_url` and the visited set, deduplicated (the Python code
collects them into a `set`, whose iteration order is unspecified; the
properties proved below do not depend on the order). -/
def extract_links (base : PyStr) (cands : List PyStr) (visited : Finset PyStr) : List PyStr :=
  (cands.filter (fun u => is_valid_url base u && decide (u ∉ visited))).dedup

/-- `WebSpider.crawl` (main.py:116-179): depth-bounded BFS.  `fetch`
models `get_page_content` (`none` = failure or non-text content type),
`pageLinks` models the `<a href>`/`urljoin` extraction from a fetched
page.  `fuel` bounds the number of loop iterations (the saves at
main.py:170-174 do not change the in-memory state and are modelled by
the ledger functions above).  While the queue is nonempty and the
counter is below the target: pop the head; skip visited or over-depth
entries; fetch; on falsy content skip; otherwise assign the next
sequence number, append the record, mark visited and, below the depth
cutoff, enqueue the filtered links at depth + 1. -/
def crawlLoop (fetch : PyStr → Option PyStr) (pageLinks : PyStr → PyStr → List PyStr)
    (base : PyStr) (maxDepth : Nat) (minPages : Int) :
    Nat → List Entry → Finset PyStr → List PageRecord → Int → CrawlResult
  | 0, _, v, r, c => ⟨v, r, c, []⟩
  | _ + 1, [], v, r, c => ⟨v, r, c, []⟩
  | fuel + 1, e :: rest, v, r, c =>
    if minPages ≤ c then ⟨v, r, c, []⟩
    else if e.url ∈ v then crawlLoop fetch pageLinks base maxDepth minPages fuel rest v r c
    else if maxDepth < e.depth then crawlLoop fetch pageLinks base maxDepth minPages fuel rest v r c
    else if notHtml (fetch e.url) then
      pushEvent ⟨e.url, e.depth, v, fetch e.url⟩
        (crawlLoop fetch pageLinks base maxDepth minPages fuel rest v r c)
    else
      let h := (fetch e.url).getD []
      let c' := c + 1
      let rec' : PageRecord := ⟨c', e.url, pageFilename c', some (parentField e.parent)⟩
      let v' := insert e.url v
      let q' :=
        if e.depth < maxDepth then
          rest ++ (extract_links base (pageLinks h e.url) v').map
            (fun l => ⟨l, e.depth + 1, some e.url⟩)
        else rest
      pushEvent ⟨e.url, e.depth, v, fetch e.url⟩
        (crawlLoop fetch pageLinks base maxDepth minPages fuel q' v' (r ++ [rec']) c')

/-- Helper for `tokenize_text`: scan the text, accumulating the current
letter run in reverse; a non-letter (or the end) closes the run. -/
def tokAux : PyStr → PyStr → List PyStr
  | acc, [] => if acc.isEmpty then [] else [acc.reverse]
  | acc, c :: cs =>
    if letterExt c then tokAux (c :: acc) cs
    else if acc.isEmpty then tokAux [] cs
    else acc.reverse :: tokAux [] cs

/-- `WebSpider._tokenize_text` (main.py:265-267):
`re.findall(r'[a-zA-Zа-яА-ЯёЁ]+', text)`, the maximal runs of letters. -/
def tokenize_text (s : PyStr) : List PyStr := tokAux [] s

/-- The text-phase aggregate state: the distinct accepted tokens and the
`defaultdict(set)` mapping each lemma to its surface forms
(main.py:276-277).  `lemmaKeys` is the key set of the dictionary;
`groups` gives the set stored under each key (empty when absent). -/
structure Agg where
  allTokens : Finset PyStr
  lemmaKeys : Finset PyStr
  groups : PyStr → Finset PyStr

/-- The aggregate state before any page is processed. -/
def emptyAgg : Agg := ⟨∅, ∅, fun _ => ∅⟩

/-- Processing of a single raw token (main.py:294-298): if it validates,
the token (as matched — not its normalised form) joins `all_tokens` and
the surface-form set of its lemma.  `lem` models
`_lemmatize_token` (main.py:269-271), the pymorphy3 collaborator. -/
def addToken (lem : PyStr → PyStr) (a : Agg) (t : PyStr) : Agg :=
  if is_valid_token t then
    { allTokens := insert t a.allTokens,
      lemmaKeys := insert (lem t) a.lemmaKeys,
      groups := fun l => if l = lem t then insert t (a.groups l) else a.groups l }
  else a

/-- Processing of one page's extracted text (main.py:292-298). -/
def processText (lem : PyStr → PyStr) (a : Agg) (text : PyStr) : Agg :=
  (tokenize_text text).foldl (addToken lem) a

/-- `WebSpider.process_downloaded_pages` (main.py:273-308) over the
extracted plain texts of the available pages (HTML-to-text extraction
is the BeautifulSoup collaborator; missing files are simply absent from
the list). -/
def process_downloaded_pages (lem : PyStr → PyStr) (texts : List PyStr) : Agg :=
  texts.foldl (processText lem) emptyAgg

/-- A URL round-trips through the plain-text ledger iff it is nonempty,
contains no newline or carriage return (a line break would split the
record), and does not end in strippable whitespace (`str.strip()` on
load would lose it). -/
def urlSafe (u : PyStr) : Prop :=
  u ≠ [] ∧ (∀ c ∈ u, c ≠ '\n' ∧ c ≠ '\r') ∧ ∀ c, u.getLast? = some c → pyWs c = false

/-- The set of URLs of a record list. -/
def urlsOf (rs : List PageRecord) : Finset PyStr := (rs.map (fun r => r.url)).toFinset

/-! ## Helper lemmas: decimal rendering and parsing -/

theorem charOfNat_digit_toNat {n : Nat} (h : n < 10) :
    (Char.ofNat (48 + n)).toNat = 48 + n := by
  unfold Char.ofNat
  rw [dif_pos]
  · rfl
  · exact Or.inl (by omega)

theorem digitCh_toNat {c : Char} (h : digitCh c = true) : 48 ≤ c.toNat ∧ c.toNat ≤ 57 := by
  simpa [digitCh, between] using h

theorem digitCh_ofNat {n : Nat} (h : n < 10) : digitCh (Char.ofNat (48 + n)) = true := by
  simp [digitCh, between, charOfNat_digit_toNat h]
  omega

theorem digitCh_not_ws {c : Char} (h : digitCh c = true) : pyWs c = false := by
  obtain ⟨h1, h2⟩ := digitCh_toNat h
  simp only [pyWs, List.contains_cons, List.contains_nil, Bool.or_false,
    Bool.or_eq_false_iff, beq_eq_false_iff_ne, ne_eq]
  omega

theorem digitCh_ne {c d : Char} (h : digitCh c = true) (hd : digitCh d = false) : c ≠ d := by
  intro e
  rw [e, hd] at h
  exact Bool.false_ne_true h

theorem digitsVal_append_digit (s : PyStr) (d : Char) :
    digitsVal (s ++ [d]) = digitsVal s * 10 + (d.toNat - 48) := by
  simp [digitsVal, List.foldl_append]

theorem natReprAux_spec :
    ∀ fuel n, n < 10 ^ (fuel + 1) →
      natReprAux (fuel + 1) n ≠ [] ∧ (∀ c ∈ natReprAux (fuel + 1) n, digitCh c = true) ∧
        digitsVal (natReprAux (fuel + 1) n) = n := by
  intro fuel
  induction fuel with
  | zero =>
    intro n hn
    have h10 : n < 10 := by simpa using hn
    simp only [natReprAux, if_pos h10]
    refine ⟨by simp, ?_, ?_⟩
    · intro c hc
      simp only [List.mem_singleton] at hc
      subst hc
      exact digitCh_ofNat h10
    · simp [digitsVal, charOfNat_digit_toNat h10]
  | succ fuel ih =>
    intro n hn
    by_cases h10 : n < 10
    · simp only [natReprAux, if_pos h10]
      refine ⟨by simp, ?_, ?_⟩
      · intro c hc
        simp only [List.mem_singleton] at hc
        subst hc
        exact digitCh_ofNat h10
      · simp [digitsVal, charOfNat_digit_toNat h10]
    · have hdiv : n / 10 < 10 ^ (fuel + 1) := by
        apply Nat.div_lt_of_lt_mul
        calc n < 10 ^ (fuel + 1 + 1) := hn
        _ = 10 * 10 ^ (fuel + 1) := by ring
      obtain ⟨hne, hdig, hval⟩ := ih (n / 10) hdiv
      rw [natReprAux, if_neg h10]
      have hm : n % 10 < 10 := Nat.mod_lt _ (by omega)
      refine ⟨by simp, ?_, ?_⟩
      · intro c hc
        rcases List.mem_append.mp hc with hc | hc
        · exact hdig c hc
        · simp only [List.mem_singleton] at hc
          subst hc
          exact digitCh_ofNat hm
      · rw [digitsVal_append_digit, hval, charOfNat_digit_toNat hm]
        omega

theorem natRepr_spec (n : Nat) :
    natRepr n ≠ [] ∧ (∀ c ∈ natRepr n, digitCh c = true) ∧ digitsVal (natRepr n) = n := by
  have hb : n < 10 ^ (n + 1) :=
    lt_of_lt_of_le (Nat.lt_pow_self (by omega) n) (Nat.pow_le_pow_right (by omega) (by omega))
  exact natReprAux_spec n n hb

theorem parseDigits_natRepr (n : Nat) : parseDigits (natRepr n) = some n := by
  obtain ⟨hne, hdig, hval⟩ := natRepr_spec n
  have hall : (natRepr n).all digitCh = true := List.all_eq_true.mpr (by
    intro c hc
    exact hdig c hc)
  simp [parseDigits, List.isEmpty_iff, hne, hall, hval]

theorem intRepr_not_ws (i : Int) : ∀ c ∈ intRepr i, pyWs c = false := by
  intro c hc
  unfold intRepr at hc
  split at hc
  · rcases List.mem_cons.mp hc with hc | hc
    · subst hc
      decide
    · exact digitCh_not_ws ((natRepr_spec _).2.1 c hc)
  · exact digitCh_not_ws ((natRepr_spec _).2.1 c hc)

theorem intRepr_ne_nil (i : Int) : intRepr i ≠ [] := by
  unfold intRepr
  split
  · simp
  · exact (natRepr_spec _).1

theorem pyInt?_intRepr (i : Int) : pyInt? (intRepr i) = some i := by
  by_cases hneg : i < 0
  · simp only [intRepr, if_pos hneg, pyInt?, List.headD, List.tail,
      parseDigits_natRepr, Option.map_some', if_true]
    rw [Option.some_inj]
    omega
  · simp only [intRepr, if_neg hneg]
    obtain ⟨hne, hdig, -⟩ := natRepr_spec i.toNat
    obtain ⟨c, cs, hcons⟩ := List.exists_cons_of_ne_nil hne
    have hc : digitCh c = true := hdig c (by rw [hcons]; exact List.mem_cons_self _ _)
    have hminus : c ≠ '-' := digitCh_ne hc (by decide)
    have hplus : c ≠ '+' := digitCh_ne hc (by decide)
    rw [hcons]
    simp only [pyInt?, List.headD, if_neg hminus, if_neg hplus, ← hcons,
      parseDigits_natRepr, Option.map_some']
    rw [Option.some_inj]
    omega

/-! ## Helper lemmas: ledger lines and their round-trip -/

theorem dropWhile_eq_self_of_head {p : Char → Bool} :
    ∀ l : PyStr, (∀ c, l.head? = some c → p c = false) → l.dropWhile p = l := by
  intro l h
  cases l with
  | nil => rfl
  | cons c cs =>
    rw [List.dropWhile_cons, if_neg]
    simp [h c rfl]

theorem pyStripWs_eq_self {l : PyStr}
    (hhead : ∀ c, l.head? = some c → pyWs c = false)
    (hlast : ∀ c, l.getLast? = some c → pyWs c = false) : pyStripWs l = l := by
  unfold pyStripWs pyStrip
  rw [dropWhile_eq_self_of_head l hhead]
  rw [dropWhile_eq_self_of_head l.reverse (by
    intro c hc
    rw [List.head?_reverse] at hc
    exact hlast c hc)]
  exact List.reverse_reverse l

theorem splitFirstSpace_append {xs : PyStr} (rest : PyStr) (h : ' ' ∉ xs) :
    splitFirstSpace (xs ++ ' ' :: rest) = some (xs, rest) := by
  induction xs with
  | nil => simp [splitFirstSpace]
  | cons c cs ih =>
    have hc : c ≠ ' ' := fun e => h (e ▸ List.mem_cons_self _ _)
    have hcs : ' ' ∉ cs := fun m => h (List.mem_cons_of_mem _ m)
    simp [splitFirstSpace, if_neg hc, ih hcs]

theorem space_not_mem_intRepr (i : Int) : ' ' ∉ intRepr i := by
  intro hm
  have := intRepr_not_ws i ' ' hm
  simp [pyWs] at this

theorem processLine_indexLine (r : PageRecord) (h : urlSafe r.url) :
    processLine (indexLine r) = some (r.file_number, r.url) := by
  obtain ⟨hne, hnl, hlast⟩ := h
  obtain ⟨c, cs, hcons⟩ := List.exists_cons_of_ne_nil (intRepr_ne_nil r.file_number)
  have hstrip : pyStripWs (indexLine r) = indexLine r := by
    apply pyStripWs_eq_self
    · intro d hd
      unfold indexLine at hd
      rw [hcons] at hd
      simp only [List.cons_append, List.head?_cons, Option.some_inj] at hd
      subst hd
      exact intRepr_not_ws r.file_number c (by rw [hcons]; exact List.mem_cons_self _ _)
    · intro d hd
      unfold indexLine at hd
      rw [List.getLast?_append_of_ne_nil _ (by simp)] at hd
      rw [show (' ' :: r.url) = [' '] ++ r.url from rfl,
        List.getLast?_append_of_ne_nil _ hne] at hd
      exact hlast d hd
  have hempty : (indexLine r).isEmpty = false := by
    unfold indexLine
    rw [hcons]
    rfl
  unfold processLine
  rw [hstrip]
  rw [Bool.eq_false_iff] at hempty
  simp only [hempty, if_neg, Bool.false_eq_true, not_false_eq_true, if_false]
  unfold indexLine
  rw [splitFirstSpace_append _ (space_not_mem_intRepr r.file_number)]
  simp [pyInt?_intRepr]

theorem nl_not_mem_indexLine (r : PageRecord) (h : urlSafe r.url) : '\n' ∉ indexLine r := by
  intro hm
  unfold indexLine at hm
  rcases List.mem_append.mp hm with hm | hm
  · have := intRepr_not_ws r.file_number _ hm
    simp [pyWs] at this
  · rcases List.mem_cons.mp hm with hm | hm
    · exact absurd hm.symm (by decide)
    · exact (h.2.1 _ hm).1 rfl

theorem cr_not_mem_indexLine (r : PageRecord) (h : urlSafe r.url) : '\r' ∉ indexLine r := by
  intro hm
  unfold indexLine at hm
  rcases List.mem_append.mp hm with hm | hm
  · have := intRepr_not_ws r.file_number _ hm
    simp [pyWs] at this
  · rcases List.mem_cons.mp hm with hm | hm
    · exact absurd hm.symm (by decide)
    · exact (h.2.1 _ hm).2 rfl

theorem univNewlines_eq_self (cs : PyStr) (h : '\r' ∉ cs) : univNewlines cs = cs := by
  induction cs using univNewlines.induct with
  | case1 => rfl
  | case2 rest ih => exact absurd (List.mem_cons_self _ _) h
  | case3 rest hne ih => exact absurd (List.mem_cons_self _ _) h
  | case4 c rest hne1 hne2 ih =>
    rw [univNewlines]
    · rw [ih (fun m => h (List.mem_cons_of_mem _ m))]
    · exact hne1
    · exact hne2

theorem splitOnChar_append {sep : Char} :
    ∀ xs : PyStr, ∀ rest, sep ∉ xs →
      splitOnChar sep (xs ++ sep :: rest) = xs :: splitOnChar sep rest := by
  intro xs
  induction xs with
  | nil =>
    intro rest _
    simp [splitOnChar]
  | cons c cs ih =>
    intro rest h
    have hc : c ≠ sep := fun e => h (e ▸ List.mem_cons_self _ _)
    have hcs : sep ∉ cs := fun m => h (List.mem_cons_of_mem _ m)
    rw [List.cons_append, splitOnChar, if_neg hc, ih rest hcs]
    rfl

theorem splitOnChar_flatten {sep : Char} :
    ∀ pieces : List PyStr, (∀ p ∈ pieces, sep ∉ p) →
      splitOnChar sep ((pieces.map (fun p => p ++ [sep])).flatten) = pieces ++ [[]] := by
  intro pieces
  induction pieces with
  | nil =>
    intro _
    simp [splitOnChar]
  | cons p ps ih =>
    intro h
    have hp : sep ∉ p := h p (List.mem_cons_self _ _)
    have hps : ∀ q ∈ ps, sep ∉ q := fun q hq => h q (List.mem_cons_of_mem _ hq)
    simp only [List.map_cons, List.flatten_cons, List.append_assoc, List.singleton_append]
    rw [splitOnChar_append p _ hp, ih hps]
    simp

theorem load_fold (rs' : List PageRecord) :
    ∀ st : LoadState, (∀ r ∈ rs', urlSafe r.url) →
      ((rs'.map indexLine).foldl loadStep st).records =
          st.records ++ rs'.map (fun r =>
            ⟨r.file_number, r.url, pageFilename r.file_number, none⟩) ∧
        ((rs'.map indexLine).foldl loadStep st).visited = st.visited ∪ urlsOf rs' := by
  induction rs' with
  | nil =>
    intro st _
    simp [urlsOf]
  | cons r rest ih =>
    intro st h
    have hr : urlSafe r.url := h r (List.mem_cons_self _ _)
    have hrest : ∀ q ∈ rest, urlSafe q.url := fun q hq => h q (List.mem_cons_of_mem _ hq)
    have hstep : loadStep st (indexLine r) =
        { visited := insert r.url st.visited,
          records := st.records ++ [⟨r.file_number, r.url, pageFilename r.file_number, none⟩],
          count := max st.count r.file_number } := by
      unfold loadStep
      rw [processLine_indexLine r hr]
    simp only [List.map_cons, List.foldl_cons, hstep]
    obtain ⟨hrec, hvis⟩ := ih _ hrest
    constructor
    · rw [hrec]
      simp
    · rw [hvis]
      simp only [urlsOf, List.map_cons, List.toFinset_cons]
      rw [Finset.insert_union, Finset.union_insert]

/-! ## Helper lemmas: the crawl loop -/

theorem foldl_inv {α : Type _} {β : Type _} (P : α → Prop) (f : α → β → α)
    (hf : ∀ a b, P a → P (f a b)) : ∀ (l : List β) (a : α), P a → P (l.foldl f a) := by
  intro l
  induction l with
  | nil => intro a ha; exact ha
  | cons b bs ih => intro a ha; exact ih _ (hf a b ha)

theorem crawl_skip_of_notHtml (fetch : PyStr → Option PyStr)
    (pl : PyStr → PyStr → List PyStr) (base : PyStr) (maxDepth : Nat) (minPages : Int)
    (fuel : Nat) (e : Entry) (rest : List Entry) (v : Finset PyStr)
    (r : List PageRecord) (c : Int)
    (hn : notHtml (fetch e.url) = true) (hc : ¬ minPages ≤ c) (hv : e.url ∉ v)
    (hd : ¬ maxDepth < e.depth) :
    crawlLoop fetch pl base maxDepth minPages (fuel + 1) (e :: rest) v r c =
      pushEvent ⟨e.url, e.depth, v, fetch e.url⟩
        (crawlLoop fetch pl base maxDepth minPages fuel rest v r c) := by
  rw [crawlLoop, if_neg hc, if_neg hv, if_neg hd, if_pos hn]

theorem crawl_events_inv (fetch : PyStr → Option PyStr)
    (pl : PyStr → PyStr → List PyStr) (base : PyStr) (maxDepth : Nat) (minPages : Int) :
    ∀ (fuel : Nat) (queue : List Entry) (v : Finset PyStr) (r : List PageRecord) (c : Int),
      ∀ ev ∈ (crawlLoop fetch pl base maxDepth minPages fuel queue v r c).events,
        ev.url ∉ ev.visitedBefore ∧ ev.depth ≤ maxDepth := by
  intro fuel
  induction fuel with
  | zero =>
    intro queue v r c ev hev
    simp [crawlLoop] at hev
  | succ fuel ih =>
    intro queue v r c ev hev
    cases queue with
    | nil => simp [crawlLoop] at hev
    | cons e rest =>
      rw [crawlLoop] at hev
      by_cases h1 : minPages ≤ c
      · rw [if_pos h1] at hev
        simp at hev
      rw [if_neg h1] at hev
      by_cases h2 : e.url ∈ v
      · rw [if_pos h2] at hev
        exact ih rest v r c ev hev
      rw [if_neg h2] at hev
      by_cases h3 : maxDepth < e.depth
      · rw [if_pos h3] at hev
        exact ih rest v r c ev hev
      rw [if_neg h3] at hev
      by_cases h4 : notHtml (fetch e.url)
      · rw [if_pos h4] at hev
        simp only [pushEvent, List.mem_cons] at hev
        rcases hev with hev | hev
        · subst hev
          exact ⟨h2, Nat.le_of_not_lt h3⟩
        · exact ih rest v r c ev hev
      · rw [if_neg h4] at hev
        simp only [pushEvent, List.mem_cons] at hev
        rcases hev with hev | hev
        · subst hev
          exact ⟨h2, Nat.le_of_not_lt h3⟩
        · exact ih _ _ _ _ ev hev

theorem crawl_fetch_equiv (fetch fetch' : PyStr → Option PyStr)
    (pl : PyStr → PyStr → List PyStr) (base : PyStr) (maxDepth : Nat) (minPages : Int)
    (hequiv : ∀ u, notHtml (fetch u) = notHtml (fetch' u) ∧
      (notHtml (fetch u) = false → fetch u = fetch' u)) :
    ∀ (fuel : Nat) (queue : List Entry) (v : Finset PyStr) (r : List PageRecord) (c : Int),
      (crawlLoop fetch pl base maxDepth minPages fuel queue v r c).visited =
          (crawlLoop fetch' pl base maxDepth minPages fuel queue v r c).visited ∧
        (crawlLoop fetch pl base maxDepth minPages fuel queue v r c).results =
          (crawlLoop fetch' pl base maxDepth minPages fuel queue v r c).results ∧
        (crawlLoop fetch pl base maxDepth minPages fuel queue v r c).count =
          (crawlLoop fetch' pl base maxDepth minPages fuel queue v r c).count := by
  intro fuel
  induction fuel with
  | zero =>
    intro queue v r c
    simp [crawlLoop]
  | succ fuel ih =>
    intro queue v r c
    cases queue with
    | nil => simp [crawlLoop]
    | cons e rest =>
      rw [crawlLoop, crawlLoop]
      by_cases h1 : minPages ≤ c
      · rw [if_pos h1, if_pos h1]
        exact ⟨rfl, rfl, rfl⟩
      rw [if_neg h1, if_neg h1]
      by_cases h2 : e.url ∈ v
      · rw [if_pos h2, if_pos h2]
        exact ih rest v r c
      rw [if_neg h2, if_neg h2]
      by_cases h3 : maxDepth < e.depth
      · rw [if_pos h3, if_pos h3]
        exact ih rest v r c
      rw [if_neg h3, if_neg h3]
      by_cases h4 : notHtml (fetch e.url)
      · have h4' : notHtml (fetch' e.url) = true := by rw [← (hequiv e.url).1]; exact h4
        rw [if_pos h4, if_pos h4']
        simpa [pushEvent] using ih rest v r c
      · have h4' : ¬ notHtml (fetch' e.url) = true := by rw [← (hequiv e.url).1]; exact h4
        have hfe : fetch e.url = fetch' e.url :=
          (hequiv e.url).2 (Bool.not_eq_true _ ▸ Bool.of_not_eq_true h4)
        rw [if_neg h4, if_neg h4']
        rw [← hfe]
        simpa [pushEvent] using ih _ _ _ _

theorem crawl_visited_eq_urls (fetch : PyStr → Option PyStr)
    (pl : PyStr → PyStr → List PyStr) (base : PyStr) (maxDepth : Nat) (minPages : Int) :
    ∀ (fuel : Nat) (queue : List Entry) (v : Finset PyStr) (r : List PageRecord) (c : Int),
      v = urlsOf r →
      (crawlLoop fetch pl base maxDepth minPages fuel queue v r c).visited =
        urlsOf (crawlLoop fetch pl base maxDepth minPages fuel queue v r c).results := by
  intro fuel
  induction fuel with
  | zero =>
    intro queue v r c hv
    simpa [crawlLoop] using hv
  | succ fuel ih =>
    intro queue v r c hv
    cases queue with
    | nil => simpa [crawlLoop] using hv
    | cons e rest =>
      rw [crawlLoop]
      by_cases h1 : minPages ≤ c
      · rw [if_pos h1]
        exact hv
      rw [if_neg h1]
      by_cases h2 : e.url ∈ v
      · rw [if_pos h2]
        exact ih rest v r c hv
      rw [if_neg h2]
      by_cases h3 : maxDepth < e.depth
      · rw [if_pos h3]
        exact ih rest v r c hv
      rw [if_neg h3]
      by_cases h4 : notHtml (fetch e.url)
      · rw [if_pos h4]
        simpa [pushEvent] using ih rest v r c hv
      · rw [if_neg h4]
        have hurls : insert e.url v =
            urlsOf (r ++ [⟨c + 1, e.url, pageFilename (c + 1), some (parentField e.parent)⟩]) := by
          rw [hv]
          simp [urlsOf, List.toFinset_append, Finset.insert_eq, Finset.union_comm]
        simpa [pushEvent] using ih _ _ _ _ hurls

theorem crawl_results_mem (fetch : PyStr → Option PyStr)
    (pl : PyStr → PyStr → List PyStr) (base : PyStr) (maxDepth : Nat) (minPages : Int) :
    ∀ (fuel : Nat) (queue : List Entry) (v : Finset PyStr) (r : List PageRecord) (c : Int),
      ∀ x ∈ (crawlLoop fetch pl base maxDepth minPages fuel queue v r c).results,
        x ∈ r ∨ ∃ p, x.parent = some p := by
  intro fuel
  induction fuel with
  | zero =>
    intro queue v r c x hx
    simp only [crawlLoop] at hx
    exact Or.inl hx
  | succ fuel ih =>
    intro queue v r c x hx
    cases queue with
    | nil =>
      simp only [crawlLoop] at hx
      exact Or.inl hx
    | cons e rest =>
      rw [crawlLoop] at hx
      by_cases h1 : minPages ≤ c
      · rw [if_pos h1] at hx
        exact Or.inl hx
      rw [if_neg h1] at hx
      by_cases h2 : e.url ∈ v
      · rw [if_pos h2] at hx
        exact ih rest v r c x hx
      rw [if_neg h2] at hx
      by_cases h3 : maxDepth < e.depth
      · rw [if_pos h3] at hx
        exact ih rest v r c x hx
      rw [if_neg h3] at hx
      by_cases h4 : notHtml (fetch e.url)
      · rw [if_pos h4] at hx
        exact ih rest v r c x hx
      · rw [if_neg h4] at hx
        simp only [pushEvent] at hx
        rcases ih _ _ _ _ x hx with hmem | hp
        · rcases List.mem_append.mp hmem with hmem | hmem
          · exact Or.inl hmem
          · simp only [List.mem_singleton] at hmem
            subst hmem
            exact Or.inr ⟨parentField e.parent, rfl⟩
        · exact Or.inr hp

/-! ## Helper lemmas: loading and aggregation invariants -/

theorem load_records_parent_none (content : PyStr) :
    ∀ x ∈ (load_existing_data content).records, x.parent = none := by
  unfold load_existing_data
  have h := foldl_inv (fun st : LoadState => ∀ x ∈ st.records, x.parent = none) loadStep
    (by
      intro st line hst x hx
      unfold loadStep at hx
      rcases hline : processLine line with - | p
      · rw [hline] at hx
        exact hst x hx
      · rw [hline] at hx
        simp only at hx
        rcases List.mem_append.mp hx with hx | hx
        · exact hst x hx
        · simp only [List.mem_singleton] at hx
          subst hx
          rfl)
    (splitOnChar '\n' (univNewlines content)) ⟨∅, [], 0⟩ (by intro x hx; simp at hx)
  exact h

theorem addToken_allTokens_valid (lem : PyStr → PyStr) (a : Agg) (t : PyStr)
    (h : ∀ x ∈ a.allTokens, is_valid_token x = true) :
    ∀ x ∈ (addToken lem a t).allTokens, is_valid_token x = true := by
  intro x hx
  unfold addToken at hx
  by_cases hv : is_valid_token t
  · rw [if_pos hv] at hx
    simp only [Finset.mem_insert] at hx
    rcases hx with hx | hx
    · subst hx; exact hv
    · exact h x hx
  · rw [if_neg hv] at hx
    exact h x hx

theorem run_allTokens_valid (lem : PyStr → PyStr) (texts : List PyStr) :
    ∀ x ∈ (process_downloaded_pages lem texts).allTokens, is_valid_token x = true := by
  unfold process_downloaded_pages
  refine foldl_inv (fun a : Agg => ∀ x ∈ a.allTokens, is_valid_token x = true)
    (processText lem) ?_ texts emptyAgg (by intro x hx; simp [emptyAgg] at hx)
  intro a text ha
  unfold processText
  exact foldl_inv _ (addToken lem) (addToken_allTokens_valid lem) (tokenize_text text) a ha

theorem addToken_inv (lem : PyStr → PyStr) (a : Agg) (t : PyStr)
    (hg : ∀ l, a.groups l = a.allTokens.filter (fun x => lem x = l))
    (hk : a.lemmaKeys = a.allTokens.image lem) :
    (∀ l, (addToken lem a t).groups l =
        (addToken lem a t).allTokens.filter (fun x => lem x = l)) ∧
      (addToken lem a t).lemmaKeys = (addToken lem a t).allTokens.image lem := by
  unfold addToken
  by_cases hv : is_valid_token t
  · rw [if_pos hv]
    constructor
    · intro l
      simp only
      rw [Finset.filter_insert]
      by_cases hl : l = lem t
      · rw [if_pos hl, if_pos (by rw [hl]), hg l, hl]
      · rw [if_neg hl, if_neg (by intro e; exact hl e.symm), hg l]
    · simp only
      rw [Finset.image_insert, hk]
  · rw [if_neg hv]
    exact ⟨hg, hk⟩

theorem run_agg_inv (lem : PyStr → PyStr) (texts : List PyStr) :
    (∀ l, (process_downloaded_pages lem texts).groups l =
        (process_downloaded_pages lem texts).allTokens.filter (fun x => lem x = l)) ∧
      (process_downloaded_pages lem texts).lemmaKeys =
        (process_downloaded_pages lem texts).allTokens.image lem := by
  unfold process_downloaded_pages
  refine foldl_inv (fun a : Agg =>
      (∀ l, a.groups l = a.allTokens.filter (fun x => lem x = l)) ∧
        a.lemmaKeys = a.allTokens.image lem)
    (processText lem) ?_ texts emptyAgg ⟨by intro l; simp [emptyAgg], by simp [emptyAgg]⟩
  intro a text ha
  unfold processText
  refine foldl_inv (fun a' : Agg =>
      (∀ l, a'.groups l = a'.allTokens.filter (fun x => lem x = l)) ∧
        a'.lemmaKeys = a'.allTokens.image lem)
    (addToken lem) ?_ (tokenize_text text) a ha
  intro a' t ha'
  exact addToken_inv lem a' t ha'.1 ha'.2

/-! ## Claim C1: the URL filter -/

/-- **C1, counterexample.**  The claim reads "non-media" as "no deny-list
extension in the path/query" (spec §4.2 rule 1).  The code instead
searches the whole lowercased URL (main.py:70), including the host: for
base domain `e.js`, the same-domain URL `http://e.js/page` has a clean
path `/page`, an empty query, no fragment and no session marker, yet
`is_valid_url` returns `false` because `.js` occurs in the host. -/
theorem c1_counterexample :
    is_valid_url (pys "e.js") (pys "http://e.js/page") = false ∧
      netloc (pys "http://e.js/page") = pys "e.js" ∧
      (pathQuery (pys "http://e.js/page")).1 = pys "/page" ∧
      (pathQuery (pys "http://e.js/page")).2 = [] ∧
      mediaExts.all (fun e =>
        !(substrOf e (pyLower ((pathQuery (pys "http://e.js/page")).1 ++
          (pathQuery (pys "http://e.js/page")).2)))) = true ∧
      (pys "http://e.js/page").contains '#' = false ∧
      substrOf (pys "sessionid") (pyLower (pys "http://e.js/page")) = false ∧
      substrOf (pys "sid=") (pyLower (pys "http://e.js/page")) = false := by
  decide

/-- **C1, amended.**  With "non-media" read as the code's actual check —
no deny-list extension occurring anywhere in the lowercased URL — all
three parts hold: (1) a URL containing a denied extension is rejected
(this covers every URL whose path/query contains one, since path and
query are substrings of the URL); (2) a URL whose non-empty host
differs from the base domain is rejected; (3) a same-domain URL with no
denied extension anywhere, no fragment and no session marker is
accepted. -/
theorem c1_url_filter :
    (∀ base url : PyStr,
        mediaExts.any (fun e => substrOf e (pyLower url)) = true →
          is_valid_url base url = false) ∧
      (∀ base url : PyStr, netloc url ≠ [] → netloc url ≠ base →
          is_valid_url base url = false) ∧
      (∀ base url : PyStr,
          mediaExts.any (fun e => substrOf e (pyLower url)) = false →
          (netloc url = [] ∨ netloc url = base) →
          url.contains '#' = false →
          substrOf (pys "sessionid") (pyLower url) = false →
          substrOf (pys "sid=") (pyLower url) = false →
          is_valid_url base url = true) := by
  refine ⟨?_, ?_, ?_⟩
  · intro base url h
    unfold is_valid_url
    rw [if_pos h]
  · intro base url h1 h2
    unfold is_valid_url
    by_cases hm : mediaExts.any (fun e => substrOf e (pyLower url)) = true
    · rw [if_pos hm]
    · rw [if_neg hm, if_pos (by simp [List.isEmpty_iff, h1, h2])]
  · intro base url hm hd hf hs1 hs2
    unfold is_valid_url
    rw [if_neg (by simp [hm]), if_neg (by rcases hd with h | h <;> simp [h]),
      if_neg (by simp [hs1, hs2]; simpa using hf)]

/-- **C1, witness** for the amended theorem at concrete URLs. -/
theorem c1_url_filter_witness :
    is_valid_url (pys "a") (pys "x.jpg") = false ∧
      is_valid_url (pys "a") (pys "http://b/q") = false ∧
      is_valid_url (pys "a") (pys "http://a/q") = true :=
  ⟨c1_url_filter.1 (pys "a") (pys "x.jpg") (by decide),
   c1_url_filter.2.1 (pys "a") (pys "http://b/q") (by decide) (by decide),
   c1_url_filter.2.2 (pys "a") (pys "http://a/q") (by decide) (Or.inr (by decide))
     (by decide) (by decide) (by decide)⟩

/-! ## Claim C2: token validator examples and idempotence -/

/-- **C2.**  The validator rejects `"123"`, `"aaa"`, `"iphone12"` and
`"и"`, accepts `"книга"`, and (being a pure function of its argument)
accepts again any candidate it has already accepted. -/
theorem c2_token_validator :
    is_valid_token (pys "123") = false ∧ is_valid_token (pys "aaa") = false ∧
      is_valid_token (pys "iphone12") = false ∧ is_valid_token (pys "и") = false ∧
      is_valid_token (pys "книга") = true ∧
      ∀ t : PyStr, is_valid_token t = true → is_valid_token t = true :=
  ⟨by decide, by decide, by decide, by decide, by decide, fun _ h => h⟩

/-- **C2, witness**: re-validating the accepted token `"книга"`. -/
theorem c2_token_validator_witness : is_valid_token (pys "книга") = true :=
  c2_token_validator.2.2.2.2.2 (pys "книга") (by decide)

/-! ## Claim C3: ledger round-trip -/

/-- **C3, counterexample.**  A crawl state may hold a URL with a trailing
space (`is_valid_url` accepts such URLs): flushing the single record
`(1, "x ")` and loading it back yields the URL `"x"` — `str.strip()` on
load destroys the trailing space — so neither the record list nor the
VisitedSet is reproduced. -/
theorem c3_counterexample :
    (load_existing_data (save_index_txt [⟨1, pys "x ", pys "page_1.html", none⟩])).records.map
        (fun r => r.url) = [pys "x"] ∧
      [(⟨1, pys "x ", pys "page_1.html", none⟩ : PageRecord)].map (fun r => r.url) =
        [pys "x "] ∧
      (load_existing_data (save_index_txt [⟨1, pys "x ", pys "page_1.html", none⟩])).visited ≠
        urlsOf [⟨1, pys "x ", pys "page_1.html", none⟩] := by
  decide

/-- **C3, amended.**  For every crawl state whose URLs are nonempty, free
of `\n`/`\r` and without trailing whitespace (every ordinary URL), and
whose filenames follow the `page_<n>.html` invariant the code
maintains, `save_index_txt` followed by `load_existing_data` reproduces
the records (same sequence numbers, URLs and filenames, in
sequence-sorted order) and a VisitedSet equal to the set of record
URLs; and in every crawl run the VisitedSet is exactly the URL set of
the records, so the reloaded VisitedSet is identical to the saved one. -/
theorem c3_ledger_roundtrip (rs : List PageRecord)
    (hurl : ∀ r ∈ rs, urlSafe r.url)
    (hfn : ∀ r ∈ rs, r.filename = pageFilename r.file_number) :
    (load_existing_data (save_index_txt rs)).records.map
        (fun r => (r.file_number, r.url, r.filename)) =
      (rs.insertionSort recLe).map (fun r => (r.file_number, r.url, r.filename)) ∧
    (load_existing_data (save_index_txt rs)).visited = urlsOf rs ∧
    ∀ (fetch : PyStr → Option PyStr) (pl : PyStr → PyStr → List PyStr) (base : PyStr)
      (maxDepth : Nat) (minPages : Int) (fuel : Nat) (queue : List Entry)
      (r0 : List PageRecord) (c : Int),
      (crawlLoop fetch pl base maxDepth minPages fuel queue (urlsOf r0) r0 c).visited =
        urlsOf (crawlLoop fetch pl base maxDepth minPages fuel queue (urlsOf r0) r0 c).results := by
  have hurl' : ∀ r ∈ rs.insertionSort recLe, urlSafe r.url := by
    intro r hr
    exact hurl r ((List.mem_insertionSort recLe).mp hr)
  have hfn' : ∀ r ∈ rs.insertionSort recLe, r.filename = pageFilename r.file_number := by
    intro r hr
    exact hfn r ((List.mem_insertionSort recLe).mp hr)
  have hsave : save_index_txt rs =
      (((rs.insertionSort recLe).map indexLine).map (fun p => p ++ ['\n'])).flatten := by
    unfold save_index_txt
    rw [List.map_map]
    rfl
  have hnocr : '\r' ∉ save_index_txt rs := by
    rw [hsave]
    intro hm
    rw [List.mem_flatten] at hm
    obtain ⟨piece, hpiece, hcm⟩ := hm
    rw [List.mem_map] at hpiece
    obtain ⟨line, hline, rfl⟩ := hpiece
    rw [List.mem_map] at hline
    obtain ⟨r, hr, rfl⟩ := hline
    rcases List.mem_append.mp hcm with hcm | hcm
    · exact cr_not_mem_indexLine r (hurl' r hr) hcm
    · simp at hcm
  have hlines : splitOnChar '\n' (univNewlines (save_index_txt rs)) =
      (rs.insertionSort recLe).map indexLine ++ [[]] := by
    rw [univNewlines_eq_self _ hnocr, hsave]
    apply splitOnChar_flatten
    intro p hp
    rw [List.mem_map] at hp
    obtain ⟨r, hr, rfl⟩ := hp
    exact nl_not_mem_indexLine r (hurl' r hr)
  have hfold := load_fold (rs.insertionSort recLe) ⟨∅, [], 0⟩ hurl'
  have hlast : loadStep (((rs.insertionSort recLe).map indexLine).foldl loadStep ⟨∅, [], 0⟩)
      [] = ((rs.insertionSort recLe).map indexLine).foldl loadStep ⟨∅, [], 0⟩ := rfl
  have hload : load_existing_data (save_index_txt rs) =
      ((rs.insertionSort recLe).map indexLine).foldl loadStep ⟨∅, [], 0⟩ := by
    unfold load_existing_data
    rw [hlines, List.foldl_append]
    simpa using hlast
  refine ⟨?_, ?_, ?_⟩
  · rw [hload, hfold.1]
    simp only [List.nil_append, List.map_map]
    apply List.map_congr_left
    intro r hr
    simp [hfn' r hr]
  · rw [hload, hfold.2]
    rw [Finset.empty_union]
    unfold urlsOf
    exact List.toFinset_eq_of_perm _ _ ((List.perm_insertionSort recLe rs).map _)
  · intro fetch pl base maxDepth minPages fuel queue r0 c
    exact crawl_visited_eq_urls fetch pl base maxDepth minPages fuel queue _ r0 c rfl

/-- **C3, witness** for the amended round-trip at a one-record state. -/
theorem c3_ledger_roundtrip_witness :
    (load_existing_data (save_index_txt [⟨1, pys "u", pys "page_1.html", none⟩])).records.map
        (fun r => (r.file_number, r.url, r.filename)) =
      ([(⟨1, pys "u", pys "page_1.html", none⟩ : PageRecord)].insertionSort recLe).map
        (fun r => (r.file_number, r.url, r.filename)) := by
  have h := c3_ledger_roundtrip [⟨1, pys "u", pys "page_1.html", none⟩] ?hu ?hf
  · exact h.1
  case hu =>
    intro r hr
    simp only [List.mem_singleton] at hr
    subst hr
    refine ⟨by decide, by decide, ?_⟩
    intro c hc
    have hcu : c = 'u' := by
      rw [show (pys "u").getLast? = some 'u' from rfl] at hc
      exact (Option.some_inj.mp hc).symm
    subst hcu
    decide
  case hf =>
    intro r hr
    simp only [List.mem_singleton] at hr
    subst hr
    rfl

/-! ## Claim C4: transport failures -/

/-- **C4, counterexample.**  A failed URL is *not* marked visited
(main.py:145-147 skip before `visited_urls.add`), so when two distinct
pages both link to it, the queue holds two entries for it and the URL
is fetched again in the same run after its first fetch failed: page `a`
links to `b` and `c`, each of which links to `d`, and every fetch of
`d` fails — the event log shows exactly two (failing) fetches of `d`. -/
theorem c4_counterexample :
    ((crawlLoop
        (fun u => if u = pys "a" then some (pys "A") else if u = pys "b" then some (pys "B")
          else if u = pys "c" then some (pys "C") else none)
        (fun h _ => if h = pys "A" then [pys "b", pys "c"] else if h = pys "B" then [pys "d"]
          else if h = pys "C" then [pys "d"] else [])
        [] 2 100 10 [⟨pys "a", 0, none⟩] ∅ [] 0).events.filter
        (fun ev => ev.url == pys "d")).map (fun ev => ev.fetched) = [none, none] := by
  decide

/-- **C4, amended.**  When the fetch of a frontier entry fails, that
*entry* is abandoned — nothing is persisted, no record appended, the
URL not marked visited, the counter unchanged — and the crawl continues
with the remaining queue; but the URL itself may be fetched again in
the same run through another frontier entry, because failed URLs are
never added to the VisitedSet. -/
theorem c4_fetch_failure (fetch : PyStr → Option PyStr)
    (pl : PyStr → PyStr → List PyStr) (base : PyStr) (maxDepth : Nat) (minPages : Int)
    (fuel : Nat) (e : Entry) (rest : List Entry) (v : Finset PyStr)
    (r : List PageRecord) (c : Int)
    (hfail : fetch e.url = none) (hc : ¬ minPages ≤ c) (hv : e.url ∉ v)
    (hd : ¬ maxDepth < e.depth) :
    crawlLoop fetch pl base maxDepth minPages (fuel + 1) (e :: rest) v r c =
      pushEvent ⟨e.url, e.depth, v, none⟩
        (crawlLoop fetch pl base maxDepth minPages fuel rest v r c) := by
  have h := crawl_skip_of_notHtml fetch pl base maxDepth minPages fuel e rest v r c
    (by rw [hfail]; rfl) hc hv hd
  rwa [hfail] at h

/-- **C4, witness** for the amended skip equation at a concrete state. -/
theorem c4_fetch_failure_witness :
    crawlLoop (fun _ => none) (fun _ _ => []) [] 3 5 1 [⟨pys "w", 0, none⟩] ∅ [] 0 =
      pushEvent ⟨pys "w", 0, ∅, none⟩
        (crawlLoop (fun _ => none) (fun _ _ => []) [] 3 5 0 [] ∅ [] 0) :=
  c4_fetch_failure (fun _ => none) (fun _ _ => []) [] 3 5 0 ⟨pys "w", 0, none⟩ [] ∅ [] 0
    rfl (by decide) (by decide) (by decide)

/-! ## Claim C5: lowercase normalisation of stored tokens -/

/-- **C5, counterexample.**  `_is_valid_token` lowercases only its local
copy of the candidate; the caller stores the *raw* matched token
(main.py:296).  Processing a page containing `Книга` puts `Книга` —
not its lowercase form — into the vocabulary set. -/
theorem c5_counterexample :
    pys "Книга" ∈ (process_downloaded_pages (fun t => t) [pys "Книга"]).allTokens ∧
      pyLower (pys "Книга") ≠ pys "Книга" := by
  decide

/-- **C5, amended.**  Tokens are stored as matched by the tokenizer (so
possibly with uppercase letters); trimming and lowercasing happen only
inside the validator.  What does hold: every token in the aggregate
vocabulary set passed `_is_valid_token` (that is, its trimmed,
lowercased form survives every check). -/
theorem c5_tokens_validated (lem : PyStr → PyStr) (texts : List PyStr) :
    ∀ t ∈ (process_downloaded_pages lem texts).allTokens, is_valid_token t = true :=
  run_allTokens_valid lem texts

/-- **C5, witness**: the stored token `Книга` validates. -/
theorem c5_tokens_validated_witness : is_valid_token (pys "Книга") = true :=
  c5_tokens_validated (fun t => t) [pys "Книга"] (pys "Книга") (by decide)

/-! ## Claim C6: lemma aggregation -/

/-- **C6.**  After the text-processing phase, accepted tokens sharing a
canonical form lie in the same lemma group's surface-form set, and the
number of distinct accepted tokens equals the sum of the surface-form
set sizes over all lemma groups: each distinct token lies in exactly
one group and none is lost. -/
theorem c6_lemma_aggregation (lem : PyStr → PyStr) (texts : List PyStr) :
    (∀ t1 ∈ (process_downloaded_pages lem texts).allTokens,
      ∀ t2 ∈ (process_downloaded_pages lem texts).allTokens,
        lem t1 = lem t2 →
          t1 ∈ (process_downloaded_pages lem texts).groups (lem t2) ∧
            t2 ∈ (process_downloaded_pages lem texts).groups (lem t1)) ∧
      (process_downloaded_pages lem texts).allTokens.card =
        ∑ l ∈ (process_downloaded_pages lem texts).lemmaKeys,
          ((process_downloaded_pages lem texts).groups l).card := by
  obtain ⟨hg, hk⟩ := run_agg_inv lem texts
  constructor
  · intro t1 h1 t2 h2 he
    constructor
    · rw [hg (lem t2)]
      exact Finset.mem_filter.mpr ⟨h1, he⟩
    · rw [hg (lem t1)]
      exact Finset.mem_filter.mpr ⟨h2, he.symm⟩
  · rw [hk]
    rw [Finset.card_eq_sum_card_fiberwise
      (fun x hx => Finset.mem_image_of_mem lem hx)]
    apply Finset.sum_congr rfl
    intro l _
    rw [hg l]

/-- **C6, witness**: a token lands in its lemma's surface-form set. -/
theorem c6_lemma_aggregation_witness :
    pys "книга" ∈ (process_downloaded_pages (fun _ => pys "л") [pys "книга"]).groups
      (pys "л") :=
  ((c6_lemma_aggregation (fun _ => pys "л") [pys "книга"]).1
    (pys "книга") (by decide) (pys "книга") (by decide) rfl).2

/-! ## Claim C7: the frontier scheduler never re-fetches -/

/-- **C7.**  In every crawl run, every fetch attempt is made on a URL not
in the VisitedSet at that moment, and never on an entry whose depth
exceeds the maximum depth — whatever duplicate or over-depth entries
the queue holds (main.py:137-141 filter every popped entry before the
fetch). -/
theorem c7_frontier_scheduler (fetch : PyStr → Option PyStr)
    (pl : PyStr → PyStr → List PyStr) (base : PyStr) (maxDepth : Nat) (minPages : Int)
    (fuel : Nat) (queue : List Entry) (v : Finset PyStr) (r : List PageRecord) (c : Int) :
    ∀ ev ∈ (crawlLoop fetch pl base maxDepth minPages fuel queue v r c).events,
      ev.url ∉ ev.visitedBefore ∧ ev.depth ≤ maxDepth :=
  crawl_events_inv fetch pl base maxDepth minPages fuel queue v r c

/-- **C7, witness** at a one-entry queue whose fetch fails. -/
theorem c7_frontier_scheduler_witness :
    pys "w" ∉ (∅ : Finset PyStr) ∧ (0 : Nat) ≤ 3 :=
  c7_frontier_scheduler (fun _ => none) (fun _ _ => []) [] 3 5 2 [⟨pys "w", 0, none⟩] ∅ [] 0
    ⟨pys "w", 0, ∅, none⟩ (by decide)

/-! ## Claim C8: runs of identical letters -/

/-- **C8, counterexample.**  The run-rejection regex at main.py:246 uses
the class `[a-zA-Zа-яА-Я]`, which does not contain `ё`/`Ё`, while the
final allowed-character class does: the candidate `ёёё` — whose
trimmed, lowercased form is a run of three identical letters of the
accepted extended range — is *accepted* by the validator. -/
theorem c8_counterexample :
    is_valid_token (pys "ёёё") = true ∧
      pyLower (pyStrip stripSet (pys "ёёё")) = List.replicate 3 'ё' ∧
      letterExt 'ё' = true := by
  decide

/-- **C8, amended.**  For every candidate whose trimmed, lowercased form
is a run of 3 or more copies of one letter of the *non-extended*
class `[a-zA-Zа-яА-Я]` (the class the run regex actually uses),
`_is_valid_token` returns false; runs of the extended letters `ё`/`Ё`
escape this check. -/
theorem c8_run_rejected (s : PyStr) (c : Char) (n : Nat)
    (hc : letterNoYo c = true) (hn : 3 ≤ n)
    (ht : pyLower (pyStrip stripSet s) = List.replicate n c) :
    is_valid_token s = false := by
  have hrun : reDollar runBody (List.replicate n c) = true := by
    obtain ⟨k, rfl⟩ : ∃ k, n = k + 3 := ⟨n - 3, by omega⟩
    unfold reDollar
    refine Bool.or_eq_true_iff.mpr (Or.inl ?_)
    rw [show List.replicate (k + 3) c = c :: List.replicate (k + 2) c from rfl]
    unfold runBody
    simp [hc, List.all_eq_true, List.mem_replicate]
  simp only [is_valid_token, ht, hrun]
  simp

/-- **C8, witness**: the run `ббб` (a non-extended Cyrillic letter) is
rejected. -/
theorem c8_run_rejected_witness : is_valid_token (pys "ббб") = false :=
  c8_run_rejected (pys "ббб") 'б' 3 (by decide) (by decide) (by decide)

/-! ## Claim C9: the tabular export -/

/-- **C9, counterexample.**  Records rebuilt by `load_existing_data`
carry Python `None` as parent (main.py:53), and `csv.writer` renders
`None` as the *empty string*, not the literal `None`: exporting the
state loaded from the ledger line `1 http://a` produces a data row
ending in an empty parent column. -/
theorem c9_counterexample :
    (load_existing_data (pys "1 http://a")).records.map (fun r => r.parent) = [none] ∧
      save_csv ((load_existing_data (pys "1 http://a")).records) =
        [pys "file_number,url,filename,parent", pys "1,http://a,page_1.html,"] ∧
      csvField none = [] ∧ csvField none ≠ pys "None" := by
  decide

/-- **C9, amended.**  The CSV export's header row is
`file_number,url,filename,parent` and its data rows appear sorted by
sequence number.  Records created *during the crawl* always carry a
parent string — the literal `"None"` when the frontier entry had no
parent (`parentField none = "None"`) — and that string is written
as-is; but records reconstructed by `load_existing_data` carry Python
`None`, which the CSV writer renders as the empty string, not the
literal `None`. -/
theorem c9_csv_export (rs : List PageRecord) :
    (save_csv rs).headD [] = pys "file_number,url,filename,parent" ∧
      (save_csv rs).tail = (rs.insertionSort recLe).map csvRow ∧
      List.Sorted recLe (rs.insertionSort recLe) ∧
      csvField (some (pys "None")) = pys "None" ∧
      parentField none = pys "None" ∧
      (∀ content : PyStr, ∀ x ∈ (load_existing_data content).records, x.parent = none) ∧
      ∀ (fetch : PyStr → Option PyStr) (pl : PyStr → PyStr → List PyStr) (base : PyStr)
        (maxDepth : Nat) (minPages : Int) (fuel : Nat) (queue : List Entry)
        (v : Finset PyStr) (r : List PageRecord) (c : Int),
        ∀ x ∈ (crawlLoop fetch pl base maxDepth minPages fuel queue v r c).results,
          x ∈ r ∨ ∃ p, x.parent = some p :=
  ⟨rfl, rfl, List.sorted_insertionSort recLe rs, rfl, rfl,
    load_records_parent_none, crawl_results_mem⟩

/-- **C9, witness**: the record loaded from `1 http://a` has an absent
parent. -/
theorem c9_csv_export_witness :
    (⟨1, pys "http://a", pageFilename 1, none⟩ : PageRecord).parent = none :=
  (c9_csv_export []).2.2.2.2.2.1 (pys "1 http://a")
    ⟨1, pys "http://a", pageFilename 1, none⟩ (by decide)

/-! ## Claim C10: empty content is treated like a failed fetch -/

/-- **C10.**  `if not html` (main.py:146) is true both for `None` and for
the empty string: an entry whose fetch returns empty content is skipped
exactly like a failed one — no record appended, URL not marked visited,
counter unchanged, no links extracted, crawl continuing with the rest
of the queue — and, more generally, replacing a fetch function by one
that agrees on Python-falsiness (and on content when truthy) leaves the
visited set, the record list and the counter of every crawl run
unchanged. -/
theorem c10_empty_content (fetch : PyStr → Option PyStr)
    (pl : PyStr → PyStr → List PyStr) (base : PyStr) (maxDepth : Nat) (minPages : Int)
    (fuel : Nat) (e : Entry) (rest : List Entry) (v : Finset PyStr)
    (r : List PageRecord) (c : Int)
    (hempty : fetch e.url = some []) (hc : ¬ minPages ≤ c) (hv : e.url ∉ v)
    (hd : ¬ maxDepth < e.depth) :
    (crawlLoop fetch pl base maxDepth minPages (fuel + 1) (e :: rest) v r c =
      pushEvent ⟨e.url, e.depth, v, some []⟩
        (crawlLoop fetch pl base maxDepth minPages fuel rest v r c)) ∧
      ∀ fetch' : PyStr → Option PyStr,
        (∀ u, notHtml (fetch u) = notHtml (fetch' u) ∧
          (notHtml (fetch u) = false → fetch u = fetch' u)) →
        ∀ (fuel' : Nat) (queue : List Entry) (v' : Finset PyStr) (r' : List PageRecord)
          (c' : Int),
          (crawlLoop fetch pl base maxDepth minPages fuel' queue v' r' c').visited =
              (crawlLoop fetch' pl base maxDepth minPages fuel' queue v' r' c').visited ∧
            (crawlLoop fetch pl base maxDepth minPages fuel' queue v' r' c').results =
              (crawlLoop fetch' pl base maxDepth minPages fuel' queue v' r' c').results ∧
            (crawlLoop fetch pl base maxDepth minPages fuel' queue v' r' c').count =
              (crawlLoop fetch' pl base maxDepth minPages fuel' queue v' r' c').count := by
  constructor
  · have h := crawl_skip_of_notHtml fetch pl base maxDepth minPages fuel e rest v r c
      (by rw [hempty]; rfl) hc hv hd
    rwa [hempty] at h
  · intro fetch' hequiv fuel' queue v' r' c'
    exact crawl_fetch_equiv fetch fetch' pl base maxDepth minPages hequiv fuel' queue v' r' c'

/-- **C10, witness** at a concrete state: the skip equation for an
empty-content fetch, and agreement with the always-failing fetch. -/
theorem c10_empty_content_witness :
    (crawlLoop (fun _ => some []) (fun _ _ => []) [] 3 5 1 [⟨pys "w", 0, none⟩] ∅ [] 0 =
      pushEvent ⟨pys "w", 0, ∅, some []⟩
        (crawlLoop (fun _ => some []) (fun _ _ => []) [] 3 5 0 [] ∅ [] 0)) ∧
      (crawlLoop (fun _ => some []) (fun _ _ => []) [] 3 5 1
          [⟨pys "w", 0, none⟩] ∅ [] 0).visited =
        (crawlLoop (fun _ => none) (fun _ _ => []) [] 3 5 1
          [⟨pys "w", 0, none⟩] ∅ [] 0).visited := by
  have h := c10_empty_content (fun _ => some []) (fun _ _ => []) [] 3 5 0
    ⟨pys "w", 0, none⟩ [] ∅ [] 0 rfl (by decide) (by decide) (by decide)
  exact ⟨h.1, (h.2 (fun _ => none) (fun u => ⟨rfl, fun hf => Bool.noConfusion hf⟩) 1
    [⟨pys "w", 0, none⟩] ∅ [] 0).1⟩

end SearchBase
